import Mathlib

/-!
Verification of the SplitGenie balance-ledger engine (`convex/contacts.js`,
`convex/users.js`) against its natural-language specification.

Modelling conventions (shallow embedding of the JavaScript source):
* Convex document ids (user ids, group ids) are modelled as `Nat`.  An absent
  `groupId` field is `Option.none`; in the source the checks `!e.groupId`
  and `q.eq("groupId", undefined)` test exactly this absence (Convex ids are
  non-empty strings, so truthiness coincides with presence).
* JavaScript numbers holding money amounts are modelled as `Int` (the spec's
  invariants are about exact arithmetic; no floating-point rounding is part
  of any claim).
* The JavaScript `Date` library is used by the source only through the
  bucketing structure `getFullYear` / `getMonth` / `new Date(y, m, 1).getTime()`.
  We model timestamps with a uniform calendar: 1000 ticks per month and
  12 months per year, so `dateYear`, `dateMonth` and `monthStartTs` satisfy
  exactly the algebraic facts the source relies on (month starts are monotone
  in (year, month), a year starts at its month 0, `getMonth ∈ [0, 11]`).
* A JavaScript object used as a map with non-index string keys
  (`balanceByUser`, `monthlyTotals`) is modelled as an insertion-ordered
  association list; `Object.entries` is its entry list in that order.
  A JavaScript `Set` is modelled as an insertion-ordered duplicate-free list.
* `Array.prototype.sort(comparator)` (ES2019+: stable; the result order is
  only specified for consistent comparators) is modelled by the stable
  insertion sort `sortBy lt` where `lt a b` means `comparator(a,b) < 0`.
  All theorems below depend on the sort only through permutation facts
  (membership / sums), except where an explicitly sorted result is proved.
* `ctx.db.get(userId)` is modelled as `List.find?` over the users table.
* `localeCompare` is modelled as code-unit string order (locale-free).
-/

namespace SplitGenie


/-! ## Generic stable sort (model of `Array.prototype.sort`) -/

/-- Stable insertion of `x` into `l`: `x` is placed before the first element
`y` that is not strictly before `x` (`lt y x = false`).  Used to model the
stable JavaScript sort: `lt a b` models `comparator(a, b) < 0`. -/
def insertBy (lt : α → α → Bool) (x : α) : List α → List α
  | [] => [x]
  | y :: ys => if lt y x then y :: insertBy lt x ys else x :: y :: ys

/-- Stable insertion sort with strict comparator `lt`. -/
def sortBy (lt : α → α → Bool) : List α → List α
  | [] => []
  | x :: xs => insertBy lt x (sortBy lt xs)

/-! ## Integer sums over lists -/

/-- `isum l f` is `Σ_{x ∈ l} f x` over the integers. -/
def isum (l : List α) (f : α → Int) : Int := (l.map f).sum

/-! ## Data model (`convex/schema` shapes as consumed by `contacts.js`) -/

/-- One participant's allocated share of an expense. -/
structure Split where
  userId : Nat
  amount : Int
  paid : Bool
deriving DecidableEq, Repr

/-- A monetary event.  `groupId = none` means a personal (1-to-1) expense. -/
structure Expense where
  paidByUserId : Nat
  groupId : Option Nat
  date : Nat
  splits : List Split
deriving DecidableEq, Repr

/-- A direct repayment between two parties, optionally scoped to a group. -/
structure Settlement where
  paidByUserId : Nat
  receivedByUserId : Nat
  amount : Int
  groupId : Option Nat
deriving DecidableEq, Repr

structure GroupMember where
  userId : Nat
  role : String
deriving DecidableEq, Repr

structure Group where
  id : Nat
  name : String
  description : String
  members : List GroupMember
deriving DecidableEq, Repr

structure User where
  id : Nat
  name : String
  email : String
  imageUrl : String
deriving DecidableEq, Repr

/-- The read-only record snapshot the aggregators fold over. -/
structure DB where
  expenses : List Expense
  settlements : List Settlement
  groups : List Group
  users : List User
deriving DecidableEq, Repr

/-- `ctx.db.get(uid)` on the users table. -/
def lookupUser (db : DB) (uid : Nat) : Option User :=
  db.users.find? (fun u => u.id == uid)

/-! ## Date model (uniform calendar; see header note) -/

/-- `new Date(t).getFullYear()`. -/
def dateYear (t : Nat) : Nat := t / 12000

/-- `new Date(t).getMonth()` (0 to 11). -/
def dateMonth (t : Nat) : Nat := t % 12000 / 1000

/-- `new Date(y, m, 1).getTime()`: first-of-month timestamp. -/
def monthStartTs (y m : Nat) : Nat := y * 12000 + m * 1000

/-! ## `getUserBalances` (pairwise balance aggregator) -/

/-- The per-counterparty tally record `{owed, owing}` of `balanceByUser`. -/
structure Tally where
  owed : Int
  owing : Int
deriving DecidableEq, Repr

/-- `(balanceByUser[uid] ??= {owed: 0, owing: 0})` followed by a field update
`f`: update the entry in place if the key exists (JavaScript objects keep the
insertion position of an existing key), otherwise append `f {owed:0,owing:0}`. -/
def updateTally (m : List (Nat × Tally)) (uid : Nat) (f : Tally → Tally) :
    List (Nat × Tally) :=
  match m with
  | [] => [(uid, f ⟨0, 0⟩)]
  | (k, t) :: rest =>
      if k = uid then (k, f t) :: rest else (k, t) :: updateTally rest uid f

/-- Mutable state of the `getUserBalances` handler: the two running totals
and the `balanceByUser` map. -/
structure BalState where
  youOwe : Int
  youAreOwed : Int
  byUser : List (Nat × Tally)
deriving DecidableEq, Repr

/-- The expense filter of `getUserBalances`:
`!e.groupId && (e.paidByUserId === user._id || e.splits.some(s => s.userId === user._id))`. -/
def balExpenseFilter (me : Nat) (e : Expense) : Bool :=
  e.groupId == none && (e.paidByUserId == me || e.splits.any (fun s => s.userId == me))

/-- The settlement filter of `getUserBalances`:
`!s.groupId && (s.paidByUserId === user._id || s.receivedByUserId === user._id)`. -/
def balSettlementFilter (me : Nat) (s : Settlement) : Bool :=
  s.groupId == none && (s.paidByUserId == me || s.receivedByUserId == me)

/-- Body of the inner `for (const s of e.splits)` loop taken when the subject
is the payer: `if (s.userId === user._id || s.paid) continue; ...`. -/
def payerStep (me : Nat) (st : BalState) (s : Split) : BalState :=
  if s.userId = me ∨ s.paid then st
  else
    { st with
      youAreOwed := st.youAreOwed + s.amount
      byUser := updateTally st.byUser s.userId
        (fun t => { t with owed := t.owed + s.amount }) }

/-- Body of the `for (const e of expenses)` loop of `getUserBalances`. -/
def applyExpense (me : Nat) (st : BalState) (e : Expense) : BalState :=
  if e.paidByUserId = me then
    e.splits.foldl (payerStep me) st
  else
    match e.splits.find? (fun s => s.userId == me) with
    | some mySplit =>
        if mySplit.paid then st
        else
          { st with
            youOwe := st.youOwe + mySplit.amount
            byUser := updateTally st.byUser e.paidByUserId
              (fun t => { t with owing := t.owing + mySplit.amount }) }
    | none => st

/-- Body of the `for (const s of settlements)` loop of `getUserBalances`. -/
def applySettlement (me : Nat) (st : BalState) (s : Settlement) : BalState :=
  if s.paidByUserId = me then
    { st with
      youOwe := st.youOwe - s.amount
      byUser := updateTally st.byUser s.receivedByUserId
        (fun t => { t with owing := t.owing - s.amount }) }
  else
    { st with
      youAreOwed := st.youAreOwed - s.amount
      byUser := updateTally st.byUser s.paidByUserId
        (fun t => { t with owed := t.owed - s.amount }) }

/-- The state of `getUserBalances` after both loops. -/
def balanceState (me : Nat) (db : DB) : BalState :=
  let st1 := (db.expenses.filter (balExpenseFilter me)).foldl (applyExpense me) ⟨0, 0, []⟩
  (db.settlements.filter (balSettlementFilter me)).foldl (applySettlement me) st1

/-- The `balanceByUser` map of `getUserBalances` after both loops. -/
def balanceByUser (me : Nat) (db : DB) : List (Nat × Tally) :=
  (balanceState me db).byUser

/-- One element of the UI lists (`{userId, name, imageUrl, amount}`). -/
structure BalEntry where
  userId : Nat
  name : String
  imageUrl : Option String
  amount : Int
deriving DecidableEq, Repr

/-- The `base` record built per counterparty: name falls back to `"Unknown"`
when the referenced user record is missing. -/
def mkBalEntry (db : DB) (uid : Nat) (net : Int) : BalEntry :=
  { userId := uid
    name := ((lookupUser db uid).map User.name).getD "Unknown"
    imageUrl := (lookupUser db uid).map User.imageUrl
    amount := |net| }

/-- The `youOweList` as pushed by the loop over `Object.entries(balanceByUser)`
(entries with `net < 0`; `net == 0` entries are skipped). -/
def youOweListRaw (db : DB) (m : List (Nat × Tally)) : List BalEntry :=
  m.filterMap (fun p =>
    let net := p.2.owed - p.2.owing
    if net ≠ 0 ∧ ¬net > 0 then some (mkBalEntry db p.1 net) else none)

/-- The `youAreOwedByList` as pushed by the same loop (entries with `net > 0`). -/
def youAreOwedByListRaw (db : DB) (m : List (Nat × Tally)) : List BalEntry :=
  m.filterMap (fun p =>
    let net := p.2.owed - p.2.owing
    if net > 0 then some (mkBalEntry db p.1 net) else none)

/-- `list.sort((a, b) => b.amount - a.amount)`: stable, descending by amount. -/
def sortByAmountDesc (l : List BalEntry) : List BalEntry :=
  sortBy (fun a b => b.amount < a.amount) l

structure OweDetails where
  youOwe : List BalEntry
  youAreOwedBy : List BalEntry
deriving DecidableEq, Repr

/-- Return shape of `getUserBalances`. -/
structure BalanceResult where
  youOwe : Int
  youAreOwed : Int
  totalBalance : Int
  oweDetails : OweDetails
deriving DecidableEq, Repr

/-- `getUserBalances` for subject `me` over snapshot `db`
(`contacts.js`, second file section: the pairwise balance aggregator). -/
def getUserBalances (me : Nat) (db : DB) : BalanceResult :=
  let st := balanceState me db
  { youOwe := st.youOwe
    youAreOwed := st.youAreOwed
    totalBalance := st.youAreOwed - st.youOwe
    oweDetails :=
      { youOwe := sortByAmountDesc (youOweListRaw db st.byUser)
        youAreOwedBy := sortByAmountDesc (youAreOwedByListRaw db st.byUser) } }

/-! ## `getAllContacts` (contact discovery) -/

/-- Projection of a resolved contact user (`type: "user"`). -/
structure ContactUser where
  id : Nat
  name : String
  email : String
  imageUrl : String
  type : String
deriving DecidableEq, Repr

/-- Projection of a group the subject belongs to (`type: "group"`). -/
structure ContactGroup where
  id : Nat
  name : String
  description : String
  memberCount : Nat
  type : String
deriving DecidableEq, Repr

structure Contacts where
  users : List ContactUser
  groups : List ContactGroup
deriving DecidableEq, Repr

/-- `Set.add`: JavaScript `Set` keeps first-insertion order and ignores
re-insertions. -/
def addUnique (l : List Nat) (x : Nat) : List Nat :=
  if x ∈ l then l else l ++ [x]

/-- The `contactIds` set: for each personal expense, add the payer (if not the
subject), then every split participant other than the subject. -/
def contactIds (me : Nat) (personalExpenses : List Expense) : List Nat :=
  personalExpenses.foldl
    (fun acc exp =>
      let acc := if exp.paidByUserId ≠ me then addUnique acc exp.paidByUserId else acc
      exp.splits.foldl (fun acc s => if s.userId ≠ me then addUnique acc s.userId else acc) acc)
    []

/-- `personalExpenses = [...expensesYouPaid, ...expensesNotPaidByYou]`. -/
def personalExpensesOf (me : Nat) (db : DB) : List Expense :=
  db.expenses.filter (fun e => e.paidByUserId == me && e.groupId == none)
    ++ (db.expenses.filter (fun e => e.groupId == none)).filter
        (fun e => e.paidByUserId ≠ me && e.splits.any (fun s => s.userId == me))

/-- The comparator model for
`contactUsers.sort((a, b) => a?.name.localeCompare(b?.name))`, as the strict
predicate `comparator(a, b) < 0`.  When `a` is `null` the optional chain makes
the comparator return `undefined`, which `SortCompare` maps to `+0` (never
negative); when only `b` is `null`, `b?.name` is `undefined` and
`localeCompare` stringifies it to `"undefined"`. -/
def contactLt (a b : Option ContactUser) : Bool :=
  match a, b with
  | none, _ => false
  | some u, none => decide (u.name < "undefined")
  | some u, some v => decide (u.name < v.name)

/-- `getAllContacts` for subject `me` over snapshot `db`
(`contacts.js`, `getAllContacts`). -/
def getAllContacts (me : Nat) (db : DB) : Contacts :=
  let personalExpenses := personalExpensesOf me db
  let ids := contactIds me personalExpenses
  let contactUsers : List (Option ContactUser) :=
    ids.map (fun id =>
      (lookupUser db id).map (fun u => ⟨u.id, u.name, u.email, u.imageUrl, "user"⟩))
  let userGroups : List ContactGroup :=
    (db.groups.filter (fun g => g.members.any (fun m => m.userId == me))).map
      (fun g => ⟨g.id, g.name, g.description, g.members.length, "group"⟩)
  { users := (sortBy contactLt contactUsers).filterMap id
    groups := sortBy (fun a b => decide (a.name < b.name)) userGroups }

/-! ## Temporal aggregators (`getTotalSpent`, `getMonthlySpending`) -/

/-- The current-year expense set both temporal aggregators reduce:
`date ≥ startOfYear` (the `by_date` index bound) and subject involved. -/
def userExpensesOf (now me : Nat) (db : DB) : List Expense :=
  (db.expenses.filter (fun e => monthStartTs (dateYear now) 0 ≤ e.date)).filter
    (fun e => e.paidByUserId == me || e.splits.any (fun s => s.userId == me))

/-- Body of the `userExpenses.forEach` loop of `getTotalSpent`: add the
subject's split amount when a split for the subject exists. -/
def totalStep (me : Nat) (total : Int) (e : Expense) : Int :=
  match e.splits.find? (fun s => s.userId == me) with
  | some userSplit => total + userSplit.amount
  | none => total

/-- `getTotalSpent` (`contacts.js`): the subject's personal share summed over
the current year. -/
def getTotalSpent (now me : Nat) (db : DB) : Int :=
  (userExpensesOf now me db).foldl (totalStep me) 0

/-- `monthlyTotals[k] = (monthlyTotals[k] || 0) + d` on the insertion-ordered
object model: update in place, or append a fresh key. -/
def setAdd (m : List (Nat × Int)) (k : Nat) (d : Int) : List (Nat × Int) :=
  match m with
  | [] => [(k, d)]
  | (k', v) :: rest => if k' = k then (k', v + d) :: rest else (k', v) :: setAdd rest k d

/-- One element of the `getMonthlySpending` result. -/
structure MonthEntry where
  month : Nat
  total : Int
deriving DecidableEq, Repr

/-- The month bucket an expense falls into
(`new Date(date.getFullYear(), date.getMonth(), 1).getTime()`). -/
def monthKeyOf (e : Expense) : Nat := monthStartTs (dateYear e.date) (dateMonth e.date)

/-- The 12 zero-initialized month buckets of the current year. -/
def monthInit (now : Nat) : List (Nat × Int) :=
  (List.range 12).map (fun i => (monthStartTs (dateYear now) i, (0 : Int)))

/-- Body of the `userExpenses.forEach` loop of `getMonthlySpending`. -/
def monthStep (me : Nat) (m : List (Nat × Int)) (e : Expense) : List (Nat × Int) :=
  match e.splits.find? (fun s => s.userId == me) with
  | some userSplit => setAdd m (monthKeyOf e) userSplit.amount
  | none => m

/-- The `monthlyTotals` object after initializing the 12 months of the current
year to 0 and folding in every user expense's subject split. -/
def monthlyTotalsMap (now me : Nat) (db : DB) : List (Nat × Int) :=
  (userExpensesOf now me db).foldl (monthStep me) (monthInit now)

/-- `getMonthlySpending` (`contacts.js`): per month-start totals of the
subject's personal share, sorted ascending by month
(`result.sort((a, b) => a.month - b.month)`). -/
def getMonthlySpending (now me : Nat) (db : DB) : List MonthEntry :=
  sortBy (fun a b => a.month < b.month)
    ((monthlyTotalsMap now me db).map (fun p => ⟨p.1, p.2⟩))

/-! ## `getUserGroups` (group balance aggregator) -/

/-- One element of the `getUserGroups` result: the group record with its
derived balance attached (`{...group, id: group._id, balance}`). -/
structure GroupWithBalance where
  grp : Group
  balance : Int
deriving DecidableEq, Repr

/-- Body of the inner split loop of `getUserGroups` when the subject paid:
`if (split.userId !== user._id && !split.paid) balance += split.amount`. -/
def groupSplitStep (me : Nat) (b : Int) (s : Split) : Int :=
  if s.userId ≠ me ∧ ¬s.paid then b + s.amount else b

/-- Body of the `expenses.forEach` loop of `getUserGroups`. -/
def groupExpenseStep (me : Nat) (balance : Int) (e : Expense) : Int :=
  if e.paidByUserId = me then
    e.splits.foldl (groupSplitStep me) balance
  else
    match e.splits.find? (fun s => s.userId == me) with
    | some userSplit => if ¬userSplit.paid then balance - userSplit.amount else balance
    | none => balance

/-- Body of the `settlements.forEach` loop of `getUserGroups`. -/
def groupSettlementStep (me : Nat) (b : Int) (s : Settlement) : Int :=
  if s.paidByUserId = me then b + s.amount else b - s.amount

/-- The expense loop of `getUserGroups` for one group's expense list. -/
def groupExpenseBalance (me : Nat) (expenses : List Expense) : Int :=
  expenses.foldl (groupExpenseStep me) 0

/-- `getUserGroups` (`contacts.js`): every group the subject is a member of,
annotated with the subject's derived balance in that group. -/
def getUserGroups (me : Nat) (db : DB) : List GroupWithBalance :=
  (db.groups.filter (fun g => g.members.any (fun m => m.userId == me))).map
    (fun g =>
      let expenses := db.expenses.filter (fun e => e.groupId == some g.id)
      let bal1 := groupExpenseBalance me expenses
      let settlements := db.settlements.filter
        (fun s => s.groupId == some g.id && (s.paidByUserId == me || s.receivedByUserId == me))
      let bal := settlements.foldl (groupSettlementStep me) bal1
      ⟨g, bal⟩)

/-- Modelled from the spec's words (§4.3 / claim C7), for comparison with the
source's `getUserGroups`: the sum over the group's expenses of (unpaid
other-member splits when the subject pays, minus the subject's own unpaid
split otherwise), plus the amounts of that group's settlements the subject
paid, minus the amounts of that group's settlements the subject received. -/
def specGroupBalance (me : Nat) (db : DB) (g : Group) : Int :=
  isum (db.expenses.filter (fun e => e.groupId == some g.id))
      (fun e =>
        if e.paidByUserId = me then
          isum e.splits (fun s => if s.userId ≠ me ∧ ¬s.paid then s.amount else 0)
        else
          match e.splits.find? (fun s => s.userId == me) with
          | some userSplit => if ¬userSplit.paid then -userSplit.amount else 0
          | none => 0)
    + isum (db.settlements.filter (fun s => s.groupId == some g.id && s.paidByUserId == me))
        (fun s => s.amount)
    - isum (db.settlements.filter (fun s => s.groupId == some g.id && s.receivedByUserId == me))
        (fun s => s.amount)

/-! ## `getUserBalances` totals as sums of per-record contributions -/

/-- Contribution of one (already filtered) expense to `youAreOwed`. -/
def eOwedD (me : Nat) (e : Expense) : Int :=
  if e.paidByUserId = me then
    isum e.splits (fun s => if s.userId = me ∨ s.paid then 0 else s.amount)
  else 0

/-- Contribution of one (already filtered) expense to `youOwe`. -/
def eOweD (me : Nat) (e : Expense) : Int :=
  if e.paidByUserId = me then 0
  else
    match e.splits.find? (fun s => s.userId == me) with
    | some mySplit => if mySplit.paid then 0 else mySplit.amount
    | none => 0

/-- Contribution of one (already filtered) settlement to `youOwe`. -/
def sOweD (me : Nat) (s : Settlement) : Int :=
  if s.paidByUserId = me then -s.amount else 0

/-- Contribution of one (already filtered) settlement to `youAreOwed`. -/
def sOwedD (me : Nat) (s : Settlement) : Int :=
  if s.paidByUserId = me then 0 else -s.amount

/-- Contribution of one expense record to `totalBalance = youAreOwed - youOwe`. -/
def tbE (me : Nat) (e : Expense) : Int :=
  if balExpenseFilter me e then eOwedD me e - eOweD me e else 0

/-- Contribution of one settlement record to `totalBalance`. -/
def tbS (me : Nat) (s : Settlement) : Int :=
  if balSettlementFilter me s then (if s.paidByUserId = me then s.amount else -s.amount) else 0

/-! ## Concrete snapshots used by witnesses and counterexamples -/

/-- Two-user snapshot: user 0 paid 100 for user 1 (own split pre-paid), and
user 1 settled 30 of it back; used by the conservation witness. -/
def dbW1 : DB :=
  ⟨[⟨0, none, 0, [⟨0, 0, true⟩, ⟨1, 100, false⟩]⟩], [⟨1, 0, 30, none⟩], [], []⟩

/-- Snapshot with a duplicate split entry for user 1 inside one 1-to-1 expense
paid by user 0. -/
def dbC1 : DB := ⟨[⟨0, none, 0, [⟨1, 3, false⟩, ⟨1, 4, false⟩]⟩], [], [], []⟩

/-- Snapshot where user 1 owes user 0 a 4-unit split. -/
def dbW4 : DB := ⟨[⟨1, none, 0, [⟨0, 4, false⟩, ⟨1, 6, true⟩]⟩], [], [], []⟩

/-- A 3-unit non-group settlement paid by user 0 to user 1. -/
def sW4 : Settlement := ⟨0, 1, 3, none⟩

/-! ## Structure of the `balanceByUser` map -/

/-- Keys of an insertion-ordered object model, in order. -/
def keysOf (m : List (Nat × α)) : List Nat := m.map Prod.fst

/-- Sum of all `owed` tallies of the map. -/
def sumOwed (m : List (Nat × Tally)) : Int := isum m (fun p => p.2.owed)

/-- Sum of all `owing` tallies of the map. -/
def sumOwing (m : List (Nat × Tally)) : Int := isum m (fun p => p.2.owing)

/-- The invariant tying the two running totals to the per-counterparty map. -/
def balInv (st : BalState) : Prop :=
  st.youAreOwed = sumOwed st.byUser ∧ st.youOwe = sumOwing st.byUser
    ∧ (keysOf st.byUser).Nodup

/-- Snapshot for the routing witness: user 0 paid 5 for user 1. -/
def dbW5 : DB := ⟨[⟨0, none, 0, [⟨1, 5, false⟩]⟩], [], [], [⟨1, "B", "b@x", "ib"⟩]⟩

/-! ## Key absence through the balance folds -/

/-- A user is involved in an expense as payer or split participant. -/
def involves (x : Nat) (e : Expense) : Prop :=
  e.paidByUserId = x ∨ ∃ s ∈ e.splits, s.userId = x

instance (x : Nat) (e : Expense) : Decidable (involves x e) := by
  unfold involves
  infer_instance

/-- Snapshot for the C2 witness: a single unrelated expense between users
2 and 3; counterparty 1 has no relationship with subject 0. -/
def dbW2 : DB := ⟨[⟨2, none, 0, [⟨3, 9, false⟩]⟩], [], [], []⟩

/-- Empty snapshot (no records at all). -/
def dbEmpty : DB := ⟨[], [], [], []⟩

/-- `dbEmpty` plus one 5-unit settlement paid by user 0 to user 1. -/
def dbC2 : DB := ⟨[], [⟨0, 1, 5, none⟩], [], []⟩

/-- Snapshot with a dangling reference: the only expense names split user 1,
but the users table only holds user 0. -/
def dbW6 : DB := ⟨[⟨0, none, 0, [⟨1, 5, false⟩]⟩], [], [], [⟨0, "A", "a@x", "ia"⟩]⟩

/-! ## Group balance contributions and snapshots -/

/-- Per-expense contribution to a group balance. -/
def gExpD (me : Nat) (e : Expense) : Int :=
  if e.paidByUserId = me then
    isum e.splits (fun s => if s.userId ≠ me ∧ ¬s.paid then s.amount else 0)
  else
    match e.splits.find? (fun s => s.userId == me) with
    | some userSplit => if ¬userSplit.paid then -userSplit.amount else 0
    | none => 0

/-- Per-settlement contribution to a group balance. -/
def gSetD (me : Nat) (s : Settlement) : Int :=
  if s.paidByUserId = me then s.amount else -s.amount

/-- Group and snapshot for the C7 witness: group 10 holds one 60-unit
expense paid by the subject and one 20-unit settlement received by the
subject. -/
def dbW7 : DB :=
  ⟨[⟨0, some 10, 0, [⟨0, 0, true⟩, ⟨1, 60, false⟩]⟩],
    [⟨1, 0, 20, some 10⟩],
    [⟨10, "G", "", [⟨0, "admin"⟩, ⟨1, "member"⟩]⟩], []⟩

/-- Group and snapshot for the C7 counterexample: group 10 holds a single
self-settlement (payer = receiver = subject) of 5 units. -/
def gC7 : Group := ⟨10, "G", "", [⟨0, "admin"⟩]⟩

def dbC7 : DB := ⟨[], [⟨0, 0, 5, some 10⟩], [gC7], []⟩

/-! ## Temporal aggregation contributions and snapshots -/

/-- The subject's personal share of one expense (0 when no split matches). -/
def shareOf (me : Nat) (e : Expense) : Int :=
  match e.splits.find? (fun s => s.userId == me) with
  | some userSplit => userSplit.amount
  | none => 0

/-- Total contribution of an expense list to the bucket keyed `k`. -/
def bucketSum (me : Nat) (l : List Expense) (k : Nat) : Int :=
  isum l (fun e => if monthKeyOf e = k then shareOf me e else 0)

/-- Snapshot for the C3 counterexample: the stored expense is dated in the
year after `now`'s year, yet still passes the `date ≥ startOfYear` fetch. -/
def dbC3 : DB := ⟨[⟨0, none, 24000, [⟨0, 5, false⟩]⟩], [], [], []⟩



theorem insertBy_perm (lt : α → α → Bool) (x : α) (l : List α) :
    List.Perm (insertBy lt x l) (x :: l) := by
  induction l with
  | nil => simp [insertBy]
  | cons y ys ih =>
    simp only [insertBy]
    by_cases h : lt y x
    · simp only [h, if_pos]
      exact ((ih.cons y).trans (List.Perm.swap x y ys))
    · simp [h]

theorem sortBy_perm (lt : α → α → Bool) (l : List α) : List.Perm (sortBy lt l) l := by
  induction l with
  | nil => simp [sortBy]
  | cons x xs ih =>
    exact (insertBy_perm lt x (sortBy lt xs)).trans (ih.cons x)

theorem mem_sortBy {lt : α → α → Bool} {x : α} {l : List α} :
    x ∈ sortBy lt l ↔ x ∈ l :=
  (sortBy_perm lt l).mem_iff

/-- If no element of `l` is strictly before `x`, insertion puts `x` in front. -/
theorem insertBy_eq_cons {lt : α → α → Bool} {x : α} {l : List α}
    (h : ∀ y ∈ l, lt y x = false) : insertBy lt x l = x :: l := by
  cases l with
  | nil => rfl
  | cons y ys => simp [insertBy, h y (by simp)]

/-- Sorting a list that is already strictly ordered (no later element is
strictly before an earlier one) is the identity. -/
theorem sortBy_eq_self {lt : α → α → Bool} {l : List α}
    (h : l.Pairwise (fun a b => lt b a = false)) : sortBy lt l = l := by
  induction l with
  | nil => rfl
  | cons x xs ih =>
    have hx : ∀ y ∈ xs, lt y x = false := fun y hy => (List.pairwise_cons.mp h).1 y hy
    have htl := (List.pairwise_cons.mp h).2
    simp only [sortBy, ih htl]
    exact insertBy_eq_cons hx

@[simp] theorem isum_nil (f : α → Int) : isum [] f = 0 := rfl

@[simp] theorem isum_cons (x : α) (l : List α) (f : α → Int) :
    isum (x :: l) f = f x + isum l f := by simp [isum]

@[simp] theorem isum_append (l₁ l₂ : List α) (f : α → Int) :
    isum (l₁ ++ l₂) f = isum l₁ f + isum l₂ f := by simp [isum]

theorem isum_congr {l : List α} {f g : α → Int} (h : ∀ x ∈ l, f x = g x) :
    isum l f = isum l g := by
  induction l with
  | nil => rfl
  | cons x xs ih => simp [isum_cons, h x (by simp), ih (fun y hy => h y (by simp [hy]))]

theorem isum_filter (p : α → Bool) (l : List α) (f : α → Int) :
    isum (l.filter p) f = isum l (fun x => if p x then f x else 0) := by
  induction l with
  | nil => rfl
  | cons x xs ih =>
    by_cases h : p x <;> simp [List.filter_cons, h, ih]

theorem isum_add (l : List α) (f g : α → Int) :
    isum l (fun x => f x + g x) = isum l f + isum l g := by
  induction l with
  | nil => rfl
  | cons x xs ih => simp [isum_cons, ih]; ring

theorem isum_eq_zero {l : List α} {f : α → Int} (h : ∀ x ∈ l, f x = 0) :
    isum l f = 0 := by
  rw [isum_congr h]; induction l <;> simp_all

theorem isum_perm {l₁ l₂ : List α} (h : List.Perm l₁ l₂) (f : α → Int) :
    isum l₁ f = isum l₂ f :=
  (h.map f).sum_eq

theorem isum_filterMap (g : α → Option β) (l : List α) (f : β → Int) :
    isum (l.filterMap g) f
      = isum l (fun x => match g x with | some y => f y | none => 0) := by
  induction l with
  | nil => rfl
  | cons x xs ih =>
    cases hg : g x <;> simp [List.filterMap_cons, hg, ih]

theorem dateMonth_lt_12 (t : Nat) : dateMonth t < 12 := by
  have h : t % 12000 < 12000 := Nat.mod_lt _ (by norm_num)
  exact Nat.div_lt_of_lt_mul (by omega)

theorem monthStartTs_le_of_year_eq {t : Nat} (h : dateYear t = y) :
    monthStartTs y 0 ≤ t := by
  subst h
  simpa [monthStartTs] using Nat.div_mul_le_self t 12000

theorem payerStep_youOwe (me : Nat) (st : BalState) (s : Split) :
    (payerStep me st s).youOwe = st.youOwe := by
  unfold payerStep; split <;> rfl

theorem payerStep_youAreOwed (me : Nat) (st : BalState) (s : Split) :
    (payerStep me st s).youAreOwed
      = st.youAreOwed + (if s.userId = me ∨ s.paid then 0 else s.amount) := by
  unfold payerStep; split <;> simp

theorem foldl_payerStep_youOwe (me : Nat) (l : List Split) (st : BalState) :
    (l.foldl (payerStep me) st).youOwe = st.youOwe := by
  induction l generalizing st with
  | nil => rfl
  | cons s rest ih => simp [List.foldl_cons, ih, payerStep_youOwe]

theorem foldl_payerStep_youAreOwed (me : Nat) (l : List Split) (st : BalState) :
    (l.foldl (payerStep me) st).youAreOwed
      = st.youAreOwed + isum l (fun s => if s.userId = me ∨ s.paid then 0 else s.amount) := by
  induction l generalizing st with
  | nil => simp
  | cons s rest ih =>
    simp [List.foldl_cons, ih, payerStep_youAreOwed]; ring

theorem applyExpense_youOwe (me : Nat) (st : BalState) (e : Expense) :
    (applyExpense me st e).youOwe = st.youOwe + eOweD me e := by
  unfold applyExpense eOweD
  by_cases hp : e.paidByUserId = me
  · simp [hp, foldl_payerStep_youOwe]
  · simp only [hp, if_false]
    cases hf : e.splits.find? (fun s => s.userId == me) with
    | none => simp
    | some ms => by_cases hms : ms.paid <;> simp [hms]

theorem applyExpense_youAreOwed (me : Nat) (st : BalState) (e : Expense) :
    (applyExpense me st e).youAreOwed = st.youAreOwed + eOwedD me e := by
  unfold applyExpense eOwedD
  by_cases hp : e.paidByUserId = me
  · simp [hp, foldl_payerStep_youAreOwed]
  · simp only [hp, if_false]
    cases hf : e.splits.find? (fun s => s.userId == me) with
    | none => simp
    | some ms => by_cases hms : ms.paid <;> simp [hms]

theorem applySettlement_youOwe (me : Nat) (st : BalState) (s : Settlement) :
    (applySettlement me st s).youOwe = st.youOwe + sOweD me s := by
  unfold applySettlement sOweD
  by_cases hp : s.paidByUserId = me <;> simp [hp, sub_eq_add_neg]

theorem applySettlement_youAreOwed (me : Nat) (st : BalState) (s : Settlement) :
    (applySettlement me st s).youAreOwed = st.youAreOwed + sOwedD me s := by
  unfold applySettlement sOwedD
  by_cases hp : s.paidByUserId = me <;> simp [hp, sub_eq_add_neg]

theorem foldl_applyExpense_youOwe (me : Nat) (l : List Expense) (st : BalState) :
    (l.foldl (applyExpense me) st).youOwe = st.youOwe + isum l (eOweD me) := by
  induction l generalizing st with
  | nil => simp
  | cons e rest ih => simp [List.foldl_cons, ih, applyExpense_youOwe]; ring

theorem foldl_applyExpense_youAreOwed (me : Nat) (l : List Expense) (st : BalState) :
    (l.foldl (applyExpense me) st).youAreOwed = st.youAreOwed + isum l (eOwedD me) := by
  induction l generalizing st with
  | nil => simp
  | cons e rest ih => simp [List.foldl_cons, ih, applyExpense_youAreOwed]; ring

theorem foldl_applySettlement_youOwe (me : Nat) (l : List Settlement) (st : BalState) :
    (l.foldl (applySettlement me) st).youOwe = st.youOwe + isum l (sOweD me) := by
  induction l generalizing st with
  | nil => simp
  | cons s rest ih => simp [List.foldl_cons, ih, applySettlement_youOwe]; ring

theorem foldl_applySettlement_youAreOwed (me : Nat) (l : List Settlement) (st : BalState) :
    (l.foldl (applySettlement me) st).youAreOwed = st.youAreOwed + isum l (sOwedD me) := by
  induction l generalizing st with
  | nil => simp
  | cons s rest ih => simp [List.foldl_cons, ih, applySettlement_youAreOwed]; ring

theorem balanceState_youOwe (me : Nat) (db : DB) :
    (balanceState me db).youOwe
      = isum db.expenses (fun e => if balExpenseFilter me e then eOweD me e else 0)
        + isum db.settlements (fun s => if balSettlementFilter me s then sOweD me s else 0) := by
  unfold balanceState
  rw [foldl_applySettlement_youOwe, foldl_applyExpense_youOwe,
    isum_filter, isum_filter]
  simp

theorem balanceState_youAreOwed (me : Nat) (db : DB) :
    (balanceState me db).youAreOwed
      = isum db.expenses (fun e => if balExpenseFilter me e then eOwedD me e else 0)
        + isum db.settlements (fun s => if balSettlementFilter me s then sOwedD me s else 0) := by
  unfold balanceState
  rw [foldl_applySettlement_youAreOwed, foldl_applyExpense_youAreOwed,
    isum_filter, isum_filter]
  simp

theorem isum_sub (l : List α) (f g : α → Int) :
    isum l f - isum l g = isum l (fun x => f x - g x) := by
  induction l with
  | nil => simp
  | cons x xs ih => simp [isum_cons, ← ih]; ring

theorem getUserBalances_totalBalance (me : Nat) (db : DB) :
    (getUserBalances me db).totalBalance
      = isum db.expenses (tbE me) + isum db.settlements (tbS me) := by
  show (balanceState me db).youAreOwed - (balanceState me db).youOwe = _
  rw [balanceState_youAreOwed, balanceState_youOwe]
  have he : isum db.expenses (fun e => if balExpenseFilter me e then eOwedD me e else 0)
      - isum db.expenses (fun e => if balExpenseFilter me e then eOweD me e else 0)
      = isum db.expenses (tbE me) := by
    rw [isum_sub]
    refine isum_congr (fun e _ => ?_)
    unfold tbE; split <;> simp
  have hs : isum db.settlements (fun s => if balSettlementFilter me s then sOwedD me s else 0)
      - isum db.settlements (fun s => if balSettlementFilter me s then sOweD me s else 0)
      = isum db.settlements (tbS me) := by
    rw [isum_sub]
    refine isum_congr (fun s _ => ?_)
    unfold tbS sOwedD sOweD
    by_cases hp : s.paidByUserId = me <;> split <;> simp [hp]
  omega

theorem getUserBalances_youOwe_eq (me : Nat) (db : DB) :
    (getUserBalances me db).youOwe
      = isum db.expenses (fun e => if balExpenseFilter me e then eOweD me e else 0)
        + isum db.settlements (fun s => if balSettlementFilter me s then sOweD me s else 0) :=
  balanceState_youOwe me db

/-! ## Claim C4: settlement monotonicity -/

/-- C4.  Adding one non-group settlement of amount `k` paid by the subject
decreases the `youOwe` total returned by `getUserBalances` by exactly `k`,
all other records unchanged. -/
theorem settlement_monotonicity (me : Nat) (db : DB) (s : Settlement)
    (hg : s.groupId = none) (hp : s.paidByUserId = me) :
    (getUserBalances me { db with settlements := db.settlements ++ [s] }).youOwe
      = (getUserBalances me db).youOwe - s.amount := by
  have h1 := getUserBalances_youOwe_eq me { db with settlements := db.settlements ++ [s] }
  have h2 := getUserBalances_youOwe_eq me db
  simp only [] at h1 h2
  rw [h1, h2, isum_append]
  have : balSettlementFilter me s = true := by
    simp [balSettlementFilter, hg, hp]
  simp [this, sOweD, hp]
  ring

/-- Witness for C4 at a concrete input: user 1 paid a 4-unit expense with a
4-unit unpaid split for user 0; adding `sW4` (user 0 pays user 1 three units)
drops user 0's `youOwe` from 4 to 1. -/
theorem settlement_monotonicity_witness :
    (getUserBalances 0 { dbW4 with settlements := dbW4.settlements ++ [sW4] }).youOwe
      = (getUserBalances 0 dbW4).youOwe - 3 :=
  settlement_monotonicity 0 dbW4 sW4 (by decide) (by decide)

/-! ## Claim C1: conservation between exactly two users -/

theorem isum_splits_of_find {B : Nat} {s₀ : Split} {splits : List Split}
    (hnd : (splits.map Split.userId).Nodup)
    (hf : splits.find? (fun s => s.userId == B) = some s₀) :
    isum splits (fun s => if s.userId = B ∧ ¬s.paid then s.amount else 0)
      = if s₀.paid then 0 else s₀.amount := by
  induction splits with
  | nil => simp at hf
  | cons s rest ih =>
    simp only [List.map_cons, List.nodup_cons] at hnd
    by_cases hs : s.userId = B
    · rw [List.find?_cons_of_pos _ (by simp [hs])] at hf
      have hs₀ : s = s₀ := Option.some.inj hf
      subst hs₀
      have hrest : ∀ x ∈ rest, ¬x.userId = B := by
        intro x hx hxB
        apply hnd.1
        rw [hs, ← hxB]
        exact List.mem_map_of_mem Split.userId hx
      rw [isum_cons, isum_eq_zero (fun x hx => by simp [hrest x hx])]
      by_cases hp : s.paid <;> simp [hs, hp]
    · rw [List.find?_cons_of_neg _ (by simp [hs])] at hf
      rw [isum_cons, ih hnd.2 hf]
      simp [hs]

theorem tbE_pair_payer {A B : Nat} (hAB : A ≠ B) {e : Expense}
    (hg : e.groupId = none) (hpA : e.paidByUserId = A)
    (hs : ∀ s ∈ e.splits, s.userId = A ∨ s.userId = B)
    (hnd : (e.splits.map Split.userId).Nodup) :
    tbE A e + tbE B e = 0 := by
  have hfA : balExpenseFilter A e = true := by
    simp [balExpenseFilter, hg, hpA]
  have hOweA : eOweD A e = 0 := by simp [eOweD, hpA]
  have hOwedA : eOwedD A e
      = isum e.splits (fun s => if s.userId = B ∧ ¬s.paid then s.amount else 0) := by
    unfold eOwedD
    rw [if_pos hpA]
    refine isum_congr (fun s hsmem => ?_)
    rcases hs s hsmem with h | h
    · simp [h, hAB]
    · by_cases hp : s.paid <;> simp [h, hp, Ne.symm hAB]
  have hpB : ¬e.paidByUserId = B := by rw [hpA]; exact hAB
  cases hfind : e.splits.find? (fun s => s.userId == B) with
  | none =>
    have hnomem : ∀ x ∈ e.splits, ¬x.userId = B := by
      intro x hx
      have := List.find?_eq_none.mp hfind x hx
      simpa using this
    have hS : eOwedD A e = 0 := by
      rw [hOwedA]
      exact isum_eq_zero (fun x hx => by simp [hnomem x hx])
    have hany : e.splits.any (fun s => s.userId == B) = false := by
      rw [List.any_eq_false]
      intro x hx
      simp [hnomem x hx]
    have hfB : balExpenseFilter B e = false := by
      simp [balExpenseFilter, hg, hpB, hany]
    simp [tbE, hfA, hfB, hS, hOweA]
  | some s₀ =>
    have hmem := List.mem_of_find?_eq_some hfind
    have hs₀B : s₀.userId = B := by
      have := List.find?_some hfind
      simpa using this
    have hfB : balExpenseFilter B e = true := by
      simp only [balExpenseFilter]
      simp [hg, List.any_eq_true]
      right
      exact ⟨s₀, hmem, hs₀B⟩
    have hOwedB : eOwedD B e = 0 := by simp [eOwedD, hpB]
    have hOweB : eOweD B e = if s₀.paid then 0 else s₀.amount := by
      simp [eOweD, hpB, hfind]
    have hS : eOwedD A e = if s₀.paid then 0 else s₀.amount := by
      rw [hOwedA]
      exact isum_splits_of_find hnd hfind
    simp [tbE, hfA, hfB, hS, hOweA, hOwedB, hOweB]

theorem tbE_pair {A B : Nat} (hAB : A ≠ B) {e : Expense}
    (hg : e.groupId = none)
    (hp : e.paidByUserId = A ∨ e.paidByUserId = B)
    (hs : ∀ s ∈ e.splits, s.userId = A ∨ s.userId = B)
    (hnd : (e.splits.map Split.userId).Nodup) :
    tbE A e + tbE B e = 0 := by
  rcases hp with hpA | hpB
  · exact tbE_pair_payer hAB hg hpA hs hnd
  · have := tbE_pair_payer (Ne.symm hAB) hg hpB
      (fun s hsmem => (hs s hsmem).symm) hnd
    omega

theorem tbS_pair {A B : Nat} (hAB : A ≠ B) {s : Settlement}
    (hg : s.groupId = none)
    (hp : s.paidByUserId = A ∨ s.paidByUserId = B)
    (hr : s.receivedByUserId = A ∨ s.receivedByUserId = B)
    (hne : s.paidByUserId ≠ s.receivedByUserId) :
    tbS A s + tbS B s = 0 := by
  unfold tbS balSettlementFilter
  rcases hp with hpA | hpB <;> rcases hr with hrA | hrB
  · exact absurd (hpA.trans hrA.symm) hne
  · simp [hpA, hrB, hg, Ne.symm hAB, hAB]
  · simp [hpB, hrA, hg, Ne.symm hAB, hAB]
  · exact absurd (hpB.trans hrB.symm) hne

/-- C1 (amended).  Conservation: over a snapshot whose expenses and
settlements are all non-group and involve only the two distinct users `A` and
`B` — with at most one split entry per user in each expense and no
self-settlement — `A`'s `totalBalance` is the negation of `B`'s. -/
theorem conservation (db : DB) (A B : Nat) (hAB : A ≠ B)
    (hE : ∀ e ∈ db.expenses,
      e.groupId = none ∧ (e.paidByUserId = A ∨ e.paidByUserId = B)
        ∧ (∀ s ∈ e.splits, s.userId = A ∨ s.userId = B)
        ∧ (e.splits.map Split.userId).Nodup)
    (hS : ∀ s ∈ db.settlements,
      s.groupId = none ∧ (s.paidByUserId = A ∨ s.paidByUserId = B)
        ∧ (s.receivedByUserId = A ∨ s.receivedByUserId = B)
        ∧ s.paidByUserId ≠ s.receivedByUserId) :
    (getUserBalances A db).totalBalance = -(getUserBalances B db).totalBalance := by
  have hA := getUserBalances_totalBalance A db
  have hB := getUserBalances_totalBalance B db
  have he : isum db.expenses (tbE A) + isum db.expenses (tbE B) = 0 := by
    rw [← isum_add]
    exact isum_eq_zero (fun e hmem =>
      tbE_pair hAB (hE e hmem).1 (hE e hmem).2.1 (hE e hmem).2.2.1 (hE e hmem).2.2.2)
  have hs : isum db.settlements (tbS A) + isum db.settlements (tbS B) = 0 := by
    rw [← isum_add]
    exact isum_eq_zero (fun s hmem =>
      tbS_pair hAB (hS s hmem).1 (hS s hmem).2.1 (hS s hmem).2.2.1 (hS s hmem).2.2.2)
  omega

/-- Witness for C1 at a concrete two-user snapshot (`dbW1`):
`totalBalance 0 = 70 = -(totalBalance 1)`. -/
theorem conservation_witness :
    (getUserBalances 0 dbW1).totalBalance = -(getUserBalances 1 dbW1).totalBalance :=
  conservation dbW1 0 1 (by decide) (by decide) (by decide)

/-- Counterexample to C1 as stated: in `dbC1` every record is a non-group
record involving only users 0 and 1, but the single expense carries two split
entries for user 1 (3 and 4 units).  The payer tally counts both (7) while
user 1's own view only finds the first split (3), so the two subjects'
`totalBalance` values are 7 and -3 — not negations of each other. -/
theorem conservation_counterexample :
    (getUserBalances 0 dbC1).totalBalance = 7
      ∧ (getUserBalances 1 dbC1).totalBalance = -3 := by
  constructor <;> decide

theorem updateTally_of_not_mem {m : List (Nat × Tally)} {uid : Nat}
    (f : Tally → Tally) (h : uid ∉ keysOf m) :
    updateTally m uid f = m ++ [(uid, f ⟨0, 0⟩)] := by
  induction m with
  | nil => rfl
  | cons p rest ih =>
    obtain ⟨k, t⟩ := p
    simp only [keysOf, List.map_cons, List.mem_cons] at h
    push_neg at h
    simp only [updateTally]
    rw [if_neg (Ne.symm h.1), ih (by simpa [keysOf] using h.2)]
    simp

theorem keysOf_updateTally (m : List (Nat × Tally)) (uid : Nat) (f : Tally → Tally) :
    keysOf (updateTally m uid f)
      = if uid ∈ keysOf m then keysOf m else keysOf m ++ [uid] := by
  induction m with
  | nil => simp [updateTally, keysOf]
  | cons p rest ih =>
    obtain ⟨k, t⟩ := p
    by_cases hk : k = uid
    · simp [updateTally, hk, keysOf]
    · simp only [updateTally, if_neg hk, keysOf, List.map_cons] at ih ⊢
      rw [ih]
      by_cases hmem : uid ∈ keysOf rest
      · simp [keysOf] at hmem
        simp [hmem]
      · simp [keysOf] at hmem
        simp [hmem, Ne.symm hk]

theorem keysOf_updateTally_nodup {m : List (Nat × Tally)} {uid : Nat}
    (f : Tally → Tally) (h : (keysOf m).Nodup) :
    (keysOf (updateTally m uid f)).Nodup := by
  rw [keysOf_updateTally]
  by_cases hmem : uid ∈ keysOf m
  · simpa [hmem]
  · simpa [hmem] using List.Nodup.append h (by simp) (by simpa using hmem)

theorem not_mem_keysOf_updateTally {m : List (Nat × Tally)} {uid c : Nat}
    {f : Tally → Tally} (hc : c ∉ keysOf m) (hne : c ≠ uid) :
    c ∉ keysOf (updateTally m uid f) := by
  rw [keysOf_updateTally]
  by_cases hmem : uid ∈ keysOf m <;> simp [hmem, hc, hne]

theorem sums_updateTally {m : List (Nat × Tally)} {uid : Nat}
    {f : Tally → Tally} {d d' : Int}
    (hf : ∀ t, (f t).owed = t.owed + d ∧ (f t).owing = t.owing + d') :
    sumOwed (updateTally m uid f) = sumOwed m + d
      ∧ sumOwing (updateTally m uid f) = sumOwing m + d' := by
  induction m with
  | nil =>
    simp [updateTally, sumOwed, sumOwing, (hf ⟨0, 0⟩).1, (hf ⟨0, 0⟩).2]
  | cons p rest ih =>
    obtain ⟨k, t⟩ := p
    by_cases hk : k = uid
    · simp only [updateTally, if_pos hk, sumOwed, sumOwing, isum_cons,
        (hf t).1, (hf t).2]
      constructor <;> ring
    · simp only [updateTally, if_neg hk, sumOwed, sumOwing, isum_cons] at ih ⊢
      constructor
      · rw [ih.1]; ring
      · rw [ih.2]; ring

theorem balInv_payerStep {me : Nat} {st : BalState} (s : Split)
    (h : balInv st) : balInv (payerStep me st s) := by
  unfold payerStep
  split
  · exact h
  · obtain ⟨h1, h2, h3⟩ := h
    have hsum := @sums_updateTally st.byUser s.userId
      (fun t => { t with owed := t.owed + s.amount }) s.amount 0
      (fun t => by simp)
    exact ⟨by simp [hsum.1, h1], by simp [hsum.2, h2], keysOf_updateTally_nodup _ h3⟩

theorem balInv_foldl_payerStep {me : Nat} (l : List Split) {st : BalState}
    (h : balInv st) : balInv (l.foldl (payerStep me) st) := by
  induction l generalizing st with
  | nil => exact h
  | cons s rest ih => exact ih (balInv_payerStep s h)

theorem balInv_applyExpense {me : Nat} {st : BalState} (e : Expense)
    (h : balInv st) : balInv (applyExpense me st e) := by
  unfold applyExpense
  split
  · exact balInv_foldl_payerStep e.splits h
  · cases hf : e.splits.find? (fun s => s.userId == me) with
    | none => exact h
    | some ms =>
      simp only [hf]
      split
      · exact h
      · obtain ⟨h1, h2, h3⟩ := h
        have hsum := @sums_updateTally st.byUser e.paidByUserId
          (fun t => { t with owing := t.owing + ms.amount })
          0 ms.amount (fun t => by simp)
        exact ⟨by simp [hsum.1, h1], by simp [hsum.2, h2],
          keysOf_updateTally_nodup _ h3⟩

theorem balInv_applySettlement {me : Nat} {st : BalState} (s : Settlement)
    (h : balInv st) : balInv (applySettlement me st s) := by
  obtain ⟨h1, h2, h3⟩ := h
  unfold applySettlement
  split
  · have hsum := @sums_updateTally st.byUser s.receivedByUserId
      (fun t => { t with owing := t.owing - s.amount })
      0 (-s.amount)
      (fun t => ⟨by simp, by simp [sub_eq_add_neg]⟩)
    refine ⟨?_, ?_, keysOf_updateTally_nodup _ h3⟩
    · show st.youAreOwed = sumOwed (updateTally st.byUser s.receivedByUserId
        (fun t => { t with owing := t.owing - s.amount }))
      omega
    · show st.youOwe - s.amount = sumOwing (updateTally st.byUser s.receivedByUserId
        (fun t => { t with owing := t.owing - s.amount }))
      omega
  · have hsum := @sums_updateTally st.byUser s.paidByUserId
      (fun t => { t with owed := t.owed - s.amount })
      (-s.amount) 0
      (fun t => ⟨by simp [sub_eq_add_neg], by simp⟩)
    refine ⟨?_, ?_, keysOf_updateTally_nodup _ h3⟩
    · show st.youAreOwed - s.amount = sumOwed (updateTally st.byUser s.paidByUserId
        (fun t => { t with owed := t.owed - s.amount }))
      omega
    · show st.youOwe = sumOwing (updateTally st.byUser s.paidByUserId
        (fun t => { t with owed := t.owed - s.amount }))
      omega

theorem balInv_balanceState (me : Nat) (db : DB) : balInv (balanceState me db) := by
  unfold balanceState
  have h0 : balInv ⟨0, 0, []⟩ := by
    refine ⟨rfl, rfl, by simp [keysOf]⟩
  have h1 : ∀ (l : List Expense) (st : BalState), balInv st →
      balInv (l.foldl (applyExpense me) st) := by
    intro l
    induction l with
    | nil => exact fun st h => h
    | cons e rest ih => exact fun st h => ih _ (balInv_applyExpense e h)
  have h2 : ∀ (l : List Settlement) (st : BalState), balInv st →
      balInv (l.foldl (applySettlement me) st) := by
    intro l
    induction l with
    | nil => exact fun st h => h
    | cons s rest ih => exact fun st h => ih _ (balInv_applySettlement s h)
  exact h2 _ _ (h1 _ _ h0)

/-! ## Membership and sums of the two UI lists -/

theorem mem_youOweListRaw {db : DB} {m : List (Nat × Tally)} {ent : BalEntry} :
    ent ∈ youOweListRaw db m
      ↔ ∃ p ∈ m, p.2.owed - p.2.owing < 0
          ∧ ent = mkBalEntry db p.1 (p.2.owed - p.2.owing) := by
  unfold youOweListRaw
  rw [List.mem_filterMap]
  constructor
  · rintro ⟨p, hp, hf⟩
    refine ⟨p, hp, ?_⟩
    by_cases hc : p.2.owed - p.2.owing ≠ 0 ∧ ¬p.2.owed - p.2.owing > 0
    · rw [if_pos hc] at hf
      exact ⟨by omega, (Option.some.inj hf).symm⟩
    · rw [if_neg hc] at hf
      exact absurd hf (by simp)
  · rintro ⟨p, hp, hneg, hent⟩
    exact ⟨p, hp, by rw [if_pos (by omega), hent]⟩

theorem mem_youAreOwedByListRaw {db : DB} {m : List (Nat × Tally)} {ent : BalEntry} :
    ent ∈ youAreOwedByListRaw db m
      ↔ ∃ p ∈ m, p.2.owed - p.2.owing > 0
          ∧ ent = mkBalEntry db p.1 (p.2.owed - p.2.owing) := by
  unfold youAreOwedByListRaw
  rw [List.mem_filterMap]
  constructor
  · rintro ⟨p, hp, hf⟩
    refine ⟨p, hp, ?_⟩
    by_cases hc : p.2.owed - p.2.owing > 0
    · rw [if_pos hc] at hf
      exact ⟨hc, (Option.some.inj hf).symm⟩
    · rw [if_neg hc] at hf
      exact absurd hf (by simp)
  · rintro ⟨p, hp, hpos, hent⟩
    exact ⟨p, hp, by rw [if_pos hpos, hent]⟩

/-- A map with duplicate-free keys associates at most one tally to a key. -/
theorem tally_unique {m : List (Nat × Tally)} (hnd : (keysOf m).Nodup)
    {uid : Nat} {t t' : Tally} (h : (uid, t) ∈ m) (h' : (uid, t') ∈ m) : t = t' := by
  induction m with
  | nil => simp at h
  | cons p rest ih =>
    simp only [keysOf, List.map_cons, List.nodup_cons] at hnd
    rcases List.mem_cons.mp h with heq | hmem <;>
      rcases List.mem_cons.mp h' with heq' | hmem'
    · have := heq.trans heq'.symm
      simpa using congrArg Prod.snd this
    · exfalso
      have huid : uid ∈ List.map Prod.fst rest := by
        simpa using List.mem_map_of_mem Prod.fst hmem'
      apply hnd.1
      rw [show p.1 = uid by rw [← heq]]
      exact huid
    · exfalso
      have huid : uid ∈ List.map Prod.fst rest := by
        simpa using List.mem_map_of_mem Prod.fst hmem
      apply hnd.1
      rw [show p.1 = uid by rw [← heq']]
      exact huid
    · exact ih hnd.2 hmem hmem'

theorem isum_youAreOwedByListRaw (db : DB) (m : List (Nat × Tally)) :
    isum (youAreOwedByListRaw db m) (fun ent => ent.amount)
      = isum m (fun p =>
          if p.2.owed - p.2.owing > 0 then p.2.owed - p.2.owing else 0) := by
  unfold youAreOwedByListRaw
  rw [isum_filterMap]
  refine isum_congr (fun p _ => ?_)
  by_cases hc : p.2.owed - p.2.owing > 0
  · simp only [if_pos hc, mkBalEntry]
    exact abs_of_pos hc
  · simp only [if_neg hc]

theorem isum_youOweListRaw (db : DB) (m : List (Nat × Tally)) :
    isum (youOweListRaw db m) (fun ent => ent.amount)
      = isum m (fun p =>
          if p.2.owed - p.2.owing < 0 then -(p.2.owed - p.2.owing) else 0) := by
  unfold youOweListRaw
  rw [isum_filterMap]
  refine isum_congr (fun p _ => ?_)
  by_cases hc : p.2.owed - p.2.owing < 0
  · rw [if_pos hc, if_pos (by omega)]
    simp only [mkBalEntry]
    exact abs_of_neg hc
  · rw [if_neg hc, if_neg (by omega)]

/-! ## Claim C9: totals agree with the per-counterparty details -/

/-- C9.  In every `getUserBalances` result, `youAreOwed` is the sum of the
per-counterparty `owed` tallies, `youOwe` is the sum of the `owing` tallies,
and `totalBalance` equals the sum of the `youAreOwedBy` amounts minus the sum
of the `youOwe` amounts. -/
theorem totals_details_consistency (me : Nat) (db : DB) :
    (getUserBalances me db).youAreOwed = sumOwed (balanceByUser me db)
      ∧ (getUserBalances me db).youOwe = sumOwing (balanceByUser me db)
      ∧ (getUserBalances me db).totalBalance
          = isum (getUserBalances me db).oweDetails.youAreOwedBy (fun ent => ent.amount)
            - isum (getUserBalances me db).oweDetails.youOwe (fun ent => ent.amount) := by
  obtain ⟨h1, h2, h3⟩ := balInv_balanceState me db
  refine ⟨h1, h2, ?_⟩
  have hsortA : isum (getUserBalances me db).oweDetails.youAreOwedBy (fun ent => ent.amount)
      = isum (youAreOwedByListRaw db (balanceByUser me db)) (fun ent => ent.amount) :=
    isum_perm (sortBy_perm _ _) _
  have hsortO : isum (getUserBalances me db).oweDetails.youOwe (fun ent => ent.amount)
      = isum (youOweListRaw db (balanceByUser me db)) (fun ent => ent.amount) :=
    isum_perm (sortBy_perm _ _) _
  have htb : (getUserBalances me db).totalBalance
      = sumOwed (balanceByUser me db) - sumOwing (balanceByUser me db) := by
    show (balanceState me db).youAreOwed - (balanceState me db).youOwe = _
    rw [h1, h2]
    rfl
  rw [hsortA, hsortO, htb, isum_youAreOwedByListRaw, isum_youOweListRaw]
  unfold sumOwed sumOwing
  rw [isum_sub, isum_sub]
  refine isum_congr (fun p _ => ?_)
  split_ifs <;> omega

/-- C5.  Every counterparty in the per-counterparty map is routed by the sign
of `net = owed - owing`: positive nets appear in `youAreOwedBy` with amount
`net`, negative nets appear in `youOwe` with amount `|net|`, and zero nets
appear in neither list. -/
theorem net_sign_routing (me : Nat) (db : DB) (uid : Nat) (t : Tally)
    (hm : (uid, t) ∈ balanceByUser me db) :
    (t.owed - t.owing > 0 →
      mkBalEntry db uid (t.owed - t.owing)
        ∈ (getUserBalances me db).oweDetails.youAreOwedBy)
    ∧ (t.owed - t.owing < 0 →
      mkBalEntry db uid (t.owed - t.owing)
        ∈ (getUserBalances me db).oweDetails.youOwe)
    ∧ (t.owed - t.owing = 0 →
      (∀ ent ∈ (getUserBalances me db).oweDetails.youOwe, ent.userId ≠ uid)
        ∧ ∀ ent ∈ (getUserBalances me db).oweDetails.youAreOwedBy, ent.userId ≠ uid) := by
  have hnd : (keysOf (balanceByUser me db)).Nodup := (balInv_balanceState me db).2.2
  refine ⟨fun hpos => ?_, fun hneg => ?_, fun hzero => ⟨?_, ?_⟩⟩
  · exact mem_sortBy.mpr (mem_youAreOwedByListRaw.mpr ⟨(uid, t), hm, hpos, rfl⟩)
  · exact mem_sortBy.mpr (mem_youOweListRaw.mpr ⟨(uid, t), hm, hneg, rfl⟩)
  · intro ent hent hid
    obtain ⟨p, hp, hneg, hentEq⟩ := mem_youOweListRaw.mp (mem_sortBy.mp hent)
    have hp1 : p.1 = uid := by
      rw [hentEq] at hid
      exact hid
    have hpm : (uid, p.2) ∈ balanceByUser me db := by
      rw [← hp1]
      exact hp
    have := tally_unique hnd hpm hm
    rw [this] at hneg
    omega
  · intro ent hent hid
    obtain ⟨p, hp, hpos, hentEq⟩ := mem_youAreOwedByListRaw.mp (mem_sortBy.mp hent)
    have hp1 : p.1 = uid := by
      rw [hentEq] at hid
      exact hid
    have hpm : (uid, p.2) ∈ balanceByUser me db := by
      rw [← hp1]
      exact hp
    have := tally_unique hnd hpm hm
    rw [this] at hpos
    omega

/-- Witness for C5 at `dbW5`: counterparty 1 has tally `{owed 5, owing 0}`,
a positive net, and indeed appears in `youAreOwedBy`. -/
theorem net_sign_routing_witness :
    (1, (⟨5, 0⟩ : Tally)) ∈ balanceByUser 0 dbW5
      ∧ mkBalEntry dbW5 1 (5 - 0) ∈ (getUserBalances 0 dbW5).oweDetails.youAreOwedBy :=
  ⟨by decide, (net_sign_routing 0 dbW5 1 ⟨5, 0⟩ (by decide)).1 (by decide)⟩

theorem keys_payerStep_not_mem {me c : Nat} {st : BalState} {s : Split}
    (hc : c ∉ keysOf st.byUser) (hne : c ≠ s.userId) :
    c ∉ keysOf (payerStep me st s).byUser := by
  unfold payerStep
  split
  · exact hc
  · exact not_mem_keysOf_updateTally hc hne

theorem keys_foldl_payerStep_not_mem {me c : Nat} {l : List Split} {st : BalState}
    (hc : c ∉ keysOf st.byUser) (hl : ∀ s ∈ l, c ≠ s.userId) :
    c ∉ keysOf (l.foldl (payerStep me) st).byUser := by
  induction l generalizing st with
  | nil => exact hc
  | cons s rest ih =>
    exact ih (keys_payerStep_not_mem hc (hl s (by simp)))
      (fun x hx => hl x (by simp [hx]))

theorem keys_applyExpense_not_mem {me c : Nat} {st : BalState} {e : Expense}
    (hc : c ∉ keysOf st.byUser) (hsplits : ∀ s ∈ e.splits, c ≠ s.userId)
    (hpay : c ≠ e.paidByUserId) :
    c ∉ keysOf (applyExpense me st e).byUser := by
  unfold applyExpense
  split
  · exact keys_foldl_payerStep_not_mem hc hsplits
  · cases hf : e.splits.find? (fun s => s.userId == me) with
    | none => simp only [hf]; exact hc
    | some ms =>
      simp only [hf]
      split
      · exact hc
      · exact not_mem_keysOf_updateTally hc hpay

theorem keys_applySettlement_not_mem {me c : Nat} {st : BalState} {s : Settlement}
    (hc : c ∉ keysOf st.byUser) (hp : c ≠ s.paidByUserId)
    (hr : c ≠ s.receivedByUserId) :
    c ∉ keysOf (applySettlement me st s).byUser := by
  unfold applySettlement
  split
  · exact not_mem_keysOf_updateTally hc hr
  · exact not_mem_keysOf_updateTally hc hp

theorem keys_foldl_applyExpense_not_mem {me c : Nat} {l : List Expense} {st : BalState}
    (hc : c ∉ keysOf st.byUser)
    (hl : ∀ e ∈ l, (∀ s ∈ e.splits, c ≠ s.userId) ∧ c ≠ e.paidByUserId) :
    c ∉ keysOf (l.foldl (applyExpense me) st).byUser := by
  induction l generalizing st with
  | nil => exact hc
  | cons e rest ih =>
    exact ih (keys_applyExpense_not_mem hc (hl e (by simp)).1 (hl e (by simp)).2)
      (fun x hx => hl x (by simp [hx]))

theorem keys_foldl_applySettlement_not_mem {me c : Nat} {l : List Settlement}
    {st : BalState} (hc : c ∉ keysOf st.byUser)
    (hl : ∀ s ∈ l, c ≠ s.paidByUserId ∧ c ≠ s.receivedByUserId) :
    c ∉ keysOf (l.foldl (applySettlement me) st).byUser := by
  induction l generalizing st with
  | nil => exact hc
  | cons s rest ih =>
    exact ih (keys_applySettlement_not_mem hc (hl s (by simp)).1 (hl s (by simp)).2)
      (fun x hx => hl x (by simp [hx]))

/-- A counterparty with no shared 1-to-1 expense with the subject and no
settlement naming it never acquires a key in `balanceByUser`. -/
theorem keys_balanceState_not_mem {me c : Nat} {db : DB}
    (hE : ∀ e ∈ db.expenses, e.groupId = none → ¬(involves me e ∧ involves c e))
    (hS : ∀ s ∈ db.settlements, s.paidByUserId ≠ c ∧ s.receivedByUserId ≠ c) :
    c ∉ keysOf (balanceByUser me db) := by
  unfold balanceByUser balanceState
  apply keys_foldl_applySettlement_not_mem
  · apply keys_foldl_applyExpense_not_mem
    · simp [keysOf]
    · intro e hef
      have hmem := List.mem_of_mem_filter hef
      have hfil : balExpenseFilter me e = true := List.of_mem_filter hef
      have hg : e.groupId = none := by
        have := hfil
        unfold balExpenseFilter at this
        simp at this
        exact this.1
      have hme : involves me e := by
        have := hfil
        unfold balExpenseFilter at this
        simp at this
        rcases this.2 with h | ⟨s, hs, hsid⟩
        · exact Or.inl h
        · exact Or.inr ⟨s, hs, hsid⟩
      have hnc : ¬involves c e := fun hcinv => hE e hmem hg ⟨hme, hcinv⟩
      constructor
      · intro s hs hcs
        exact hnc (Or.inr ⟨s, hs, hcs.symm⟩)
      · intro hcp
        exact hnc (Or.inl hcp.symm)
  · intro s hsf
    have hmem := List.mem_of_mem_filter hsf
    exact ⟨Ne.symm (hS s hmem).1, Ne.symm (hS s hmem).2⟩

/-! ## Claim C2: settlements against a counterparty with no expense tally -/

theorem balanceState_append_settlement (me : Nat) (db : DB) (s : Settlement)
    (hf : balSettlementFilter me s = true) :
    balanceState me { db with settlements := db.settlements ++ [s] }
      = applySettlement me (balanceState me db) s := by
  show ((db.settlements ++ [s]).filter (balSettlementFilter me)).foldl (applySettlement me)
      ((db.expenses.filter (balExpenseFilter me)).foldl (applyExpense me) ⟨0, 0, []⟩)
    = applySettlement me (balanceState me db) s
  rw [List.filter_append, List.foldl_append]
  simp [hf]
  rfl

/-- C2 (amended).  If the counterparty `c` is a different user from the
subject, shares no 1-to-1 expense with the subject, and no existing
settlement names `c`, adding one non-group settlement of amount `k > 0`
between them creates a new balance: when the subject pays `c`, the
counterparty appears in `youAreOwedBy` with amount `k` (never in `youOwe`)
and `totalBalance` moves by `+k`; when the subject receives from `c`, the
counterparty appears in `youOwe` with amount `k` (never in `youAreOwedBy`)
and `totalBalance` moves by `-k`. -/
theorem settlement_creates_balance (me c : Nat) (db : DB) (k : Int) (hk : k > 0)
    (hme : me ≠ c)
    (hE : ∀ e ∈ db.expenses, e.groupId = none → ¬(involves me e ∧ involves c e))
    (hS : ∀ s ∈ db.settlements, s.paidByUserId ≠ c ∧ s.receivedByUserId ≠ c) :
    (mkBalEntry db c k
        ∈ (getUserBalances me
            { db with settlements := db.settlements ++ [⟨me, c, k, none⟩] }).oweDetails.youAreOwedBy
      ∧ (∀ ent ∈ (getUserBalances me
            { db with settlements := db.settlements ++ [⟨me, c, k, none⟩] }).oweDetails.youOwe,
          ent.userId ≠ c)
      ∧ (getUserBalances me
            { db with settlements := db.settlements ++ [⟨me, c, k, none⟩] }).totalBalance
          = (getUserBalances me db).totalBalance + k)
    ∧ (mkBalEntry db c (-k)
        ∈ (getUserBalances me
            { db with settlements := db.settlements ++ [⟨c, me, k, none⟩] }).oweDetails.youOwe
      ∧ (∀ ent ∈ (getUserBalances me
            { db with settlements := db.settlements ++ [⟨c, me, k, none⟩] }).oweDetails.youAreOwedBy,
          ent.userId ≠ c)
      ∧ (getUserBalances me
            { db with settlements := db.settlements ++ [⟨c, me, k, none⟩] }).totalBalance
          = (getUserBalances me db).totalBalance - k) := by
  have hkeys : c ∉ keysOf (balanceByUser me db) := keys_balanceState_not_mem hE hS
  constructor
  · have hf : balSettlementFilter me (⟨me, c, k, none⟩ : Settlement) = true := by
      simp [balSettlementFilter]
    have hstate := balanceState_append_settlement me db ⟨me, c, k, none⟩ hf
    have hby : (balanceState me
          { db with settlements := db.settlements ++ [⟨me, c, k, none⟩] }).byUser
        = balanceByUser me db ++ [(c, ⟨0, 0 - k⟩)] := by
      rw [hstate]
      simp only [applySettlement, if_true]
      show updateTally (balanceByUser me db) c (fun t => { t with owing := t.owing - k }) = _
      rw [updateTally_of_not_mem _ hkeys]
    refine ⟨?_, ?_, ?_⟩
    · apply mem_sortBy.mpr
      apply mem_youAreOwedByListRaw.mpr
      refine ⟨(c, ⟨0, 0 - k⟩), ?_, ?_, ?_⟩
      · rw [hby]
        exact List.mem_append_right _ (by simp)
      · show (0 : Int) - (0 - k) > 0
        omega
      · show mkBalEntry db c k = mkBalEntry _ c ((0 : Int) - (0 - k))
        have hkk : (0 : Int) - (0 - k) = k := by ring
        rw [hkk]
        rfl
    · intro ent hent hentc
      obtain ⟨p, hp, hneg, hentEq⟩ := mem_youOweListRaw.mp (mem_sortBy.mp hent)
      have hp1 : p.1 = c := by
        rw [hentEq] at hentc
        exact hentc
      rw [hby] at hp
      rcases List.mem_append.mp hp with hp' | hp'
      · apply hkeys
        rw [← hp1]
        exact List.mem_map_of_mem Prod.fst hp'
      · have : p = (c, ⟨0, 0 - k⟩) := by simpa using hp'
        rw [this] at hneg
        simp at hneg
        omega
    · have h1 := getUserBalances_totalBalance me
        { db with settlements := db.settlements ++ [⟨me, c, k, none⟩] }
      have h2 := getUserBalances_totalBalance me db
      have hs0 : tbS me ⟨me, c, k, none⟩ = k := by
        simp [tbS, balSettlementFilter]
      rw [isum_append] at h1
      simp only [isum_cons, isum_nil, hs0] at h1
      omega
  · have hf : balSettlementFilter me (⟨c, me, k, none⟩ : Settlement) = true := by
      simp [balSettlementFilter]
    have hstate := balanceState_append_settlement me db ⟨c, me, k, none⟩ hf
    have hby : (balanceState me
          { db with settlements := db.settlements ++ [⟨c, me, k, none⟩] }).byUser
        = balanceByUser me db ++ [(c, ⟨0 - k, 0⟩)] := by
      rw [hstate]
      simp only [applySettlement]
      rw [if_neg (show ¬(⟨c, me, k, none⟩ : Settlement).paidByUserId = me from Ne.symm hme)]
      show updateTally (balanceByUser me db) c (fun t => { t with owed := t.owed - k }) = _
      rw [updateTally_of_not_mem _ hkeys]
    refine ⟨?_, ?_, ?_⟩
    · apply mem_sortBy.mpr
      apply mem_youOweListRaw.mpr
      refine ⟨(c, ⟨0 - k, 0⟩), ?_, ?_, ?_⟩
      · rw [hby]
        exact List.mem_append_right _ (by simp)
      · show (0 : Int) - k - 0 < 0
        omega
      · show mkBalEntry db c (-k) = mkBalEntry _ c ((0 : Int) - k - 0)
        have hkk : (0 : Int) - k - 0 = -k := by ring
        rw [hkk]
        rfl
    · intro ent hent hentc
      obtain ⟨p, hp, hpos, hentEq⟩ := mem_youAreOwedByListRaw.mp (mem_sortBy.mp hent)
      have hp1 : p.1 = c := by
        rw [hentEq] at hentc
        exact hentc
      rw [hby] at hp
      rcases List.mem_append.mp hp with hp' | hp'
      · apply hkeys
        rw [← hp1]
        exact List.mem_map_of_mem Prod.fst hp'
      · have : p = (c, ⟨0 - k, 0⟩) := by simpa using hp'
        rw [this] at hpos
        simp at hpos
        omega
    · have h1 := getUserBalances_totalBalance me
        { db with settlements := db.settlements ++ [⟨c, me, k, none⟩] }
      have h2 := getUserBalances_totalBalance me db
      have hs0 : tbS me ⟨c, me, k, none⟩ = -k := by
        simp [tbS, balSettlementFilter, Ne.symm hme]
      rw [isum_append] at h1
      simp only [isum_cons, isum_nil, hs0] at h1
      omega

/-- Counterexample to C2 as stated: in the empty snapshot the counterparty 1
has no expense-derived tally toward subject 0, yet adding the settlement
`0 → 1` of amount 5 (snapshot `dbC2`) puts counterparty 1 into the
`youAreOwedBy` list and moves `totalBalance` from 0 to 5 — the settlement
creates a brand-new balance instead of leaving the lists and total untouched. -/
theorem settlement_creates_balance_counterexample :
    (getUserBalances 0 dbEmpty).totalBalance = 0
      ∧ (getUserBalances 0 dbEmpty).oweDetails.youAreOwedBy = []
      ∧ (getUserBalances 0 dbC2).oweDetails.youAreOwedBy
          = [{ userId := 1, name := "Unknown", imageUrl := none, amount := 5 }]
      ∧ (getUserBalances 0 dbC2).totalBalance = 5 := by
  refine ⟨by decide, by decide, by decide, by decide⟩

/-- Witness for C2 (amended) at `dbW2`: subject 0 settling 5 units to the
unrelated counterparty 1 acquires a 5-unit credit entry; receiving the same
settlement instead yields a 5-unit debt entry. -/
theorem settlement_creates_balance_witness :
    mkBalEntry dbW2 1 5
        ∈ (getUserBalances 0
            { dbW2 with settlements := dbW2.settlements ++ [⟨0, 1, 5, none⟩] }).oweDetails.youAreOwedBy
      ∧ (getUserBalances 0
            { dbW2 with settlements := dbW2.settlements ++ [⟨0, 1, 5, none⟩] }).totalBalance
          = (getUserBalances 0 dbW2).totalBalance + 5
      ∧ mkBalEntry dbW2 1 (-5)
          ∈ (getUserBalances 0
              { dbW2 with settlements := dbW2.settlements ++ [⟨1, 0, 5, none⟩] }).oweDetails.youOwe
      ∧ (getUserBalances 0
            { dbW2 with settlements := dbW2.settlements ++ [⟨1, 0, 5, none⟩] }).totalBalance
          = (getUserBalances 0 dbW2).totalBalance - 5 := by
  have h := settlement_creates_balance 0 1 dbW2 5 (by decide) (by decide)
    (by decide) (by decide)
  exact ⟨h.1.1, h.1.2.2, h.2.1, h.2.2.2⟩

/-! ## Claim C6: missing-reference tolerance -/

theorem getAllContacts_users_eq (me : Nat) (db : DB) :
    (getAllContacts me db).users
      = (sortBy contactLt
          ((contactIds me (personalExpensesOf me db)).map
            (fun id => (lookupUser db id).map
              (fun u => ⟨u.id, u.name, u.email, u.imageUrl, "user"⟩)))).filterMap id := rfl

/-- C6.  Both aggregations are total functions, so a dangling user reference
never aborts them; a user id that resolves to no record is dropped from the
`getAllContacts` users list, while `getUserBalances` keeps its tallied amount
in the output lists under the missing id with name `"Unknown"` (and no
image). -/
theorem missing_reference_tolerance (me uid : Nat) (db : DB)
    (hnone : lookupUser db uid = none) :
    (∀ c ∈ (getAllContacts me db).users, c.id ≠ uid)
      ∧ ∀ t : Tally, (uid, t) ∈ balanceByUser me db →
          (t.owed - t.owing > 0 →
            (⟨uid, "Unknown", none, |t.owed - t.owing|⟩ : BalEntry)
              ∈ (getUserBalances me db).oweDetails.youAreOwedBy)
          ∧ (t.owed - t.owing < 0 →
            (⟨uid, "Unknown", none, |t.owed - t.owing|⟩ : BalEntry)
              ∈ (getUserBalances me db).oweDetails.youOwe) := by
  have hentry : ∀ net : Int,
      mkBalEntry db uid net = ⟨uid, "Unknown", none, |net|⟩ := by
    intro net
    unfold mkBalEntry
    rw [hnone]
    rfl
  constructor
  · intro c hc hcid
    rw [getAllContacts_users_eq] at hc
    obtain ⟨a, ha, haid⟩ := List.mem_filterMap.mp hc
    have ha' : a = some c := haid
    rw [ha'] at ha
    have hmem := mem_sortBy.mp ha
    obtain ⟨i, hi, hmap⟩ := List.mem_map.mp hmem
    cases hu : lookupUser db i with
    | none =>
      rw [hu] at hmap
      simp at hmap
    | some u =>
      rw [hu] at hmap
      simp only [Option.map_some'] at hmap
      have hcu := Option.some.inj hmap
      have hcid' : c.id = u.id := by rw [← hcu]
      have humem : u ∈ db.users := List.mem_of_find?_eq_some hu
      have hne := List.find?_eq_none.mp hnone u humem
      apply hne
      simp only [beq_iff_eq]
      rw [← hcid', hcid]
  · intro t hm
    refine ⟨fun hpos => ?_, fun hneg => ?_⟩
    · rw [← hentry (t.owed - t.owing)]
      exact mem_sortBy.mpr (mem_youAreOwedByListRaw.mpr ⟨(uid, t), hm, hpos, rfl⟩)
    · rw [← hentry (t.owed - t.owing)]
      exact mem_sortBy.mpr (mem_youOweListRaw.mpr ⟨(uid, t), hm, hneg, rfl⟩)

/-- Witness for C6 at `dbW6`: user id 1 resolves to no record; it is absent
from the contacts list, yet its 5-unit tally survives in `youAreOwedBy` under
the name `"Unknown"`. -/
theorem missing_reference_tolerance_witness :
    lookupUser dbW6 1 = none
      ∧ (∀ c ∈ (getAllContacts 0 dbW6).users, c.id ≠ 1)
      ∧ (⟨1, "Unknown", none, |(5 : Int) - 0|⟩ : BalEntry)
          ∈ (getUserBalances 0 dbW6).oweDetails.youAreOwedBy :=
  ⟨by decide,
    (missing_reference_tolerance 0 1 dbW6 (by decide)).1,
    ((missing_reference_tolerance 0 1 dbW6 (by decide)).2 ⟨5, 0⟩ (by decide)).1 (by decide)⟩

theorem foldl_groupSplitStep (me : Nat) (l : List Split) (b : Int) :
    l.foldl (groupSplitStep me) b
      = b + isum l (fun s => if s.userId ≠ me ∧ ¬s.paid then s.amount else 0) := by
  induction l generalizing b with
  | nil => simp
  | cons s rest ih =>
    simp only [List.foldl_cons, groupSplitStep, isum_cons, ih]
    split_ifs <;> ring

theorem groupExpenseStep_eq (me : Nat) (b : Int) (e : Expense) :
    groupExpenseStep me b e = b + gExpD me e := by
  unfold groupExpenseStep gExpD
  by_cases hp : e.paidByUserId = me
  · simp [hp, foldl_groupSplitStep]
  · simp only [hp, if_false]
    cases hf : e.splits.find? (fun s => s.userId == me) with
    | none => simp
    | some us => by_cases hu : us.paid <;> simp [hu, sub_eq_add_neg]

theorem foldl_groupExpenseStep (me : Nat) (l : List Expense) (b : Int) :
    l.foldl (groupExpenseStep me) b = b + isum l (gExpD me) := by
  induction l generalizing b with
  | nil => simp
  | cons e rest ih => simp [List.foldl_cons, groupExpenseStep_eq, ih]; ring

theorem foldl_groupSettlementStep (me : Nat) (l : List Settlement) (b : Int) :
    l.foldl (groupSettlementStep me) b = b + isum l (gSetD me) := by
  induction l generalizing b with
  | nil => simp
  | cons s rest ih =>
    by_cases h : s.paidByUserId = me <;>
      simp [List.foldl_cons, groupSettlementStep, gSetD, h, ih, sub_eq_add_neg] <;> ring

/-- The balance `getUserGroups` attaches to a returned group, as two sums. -/
theorem getUserGroups_balance (me : Nat) (db : DB) {item : GroupWithBalance}
    (hmem : item ∈ getUserGroups me db) :
    item.balance
      = isum (db.expenses.filter (fun e => e.groupId == some item.grp.id)) (gExpD me)
        + isum (db.settlements.filter
            (fun s => s.groupId == some item.grp.id
              && (s.paidByUserId == me || s.receivedByUserId == me))) (gSetD me) := by
  unfold getUserGroups at hmem
  obtain ⟨g, hg, heq⟩ := List.mem_map.mp hmem
  rw [← heq]
  show ((db.settlements.filter
      (fun s => s.groupId == some g.id
        && (s.paidByUserId == me || s.receivedByUserId == me))).foldl
          (groupSettlementStep me)
          (groupExpenseBalance me (db.expenses.filter (fun e => e.groupId == some g.id)))) = _
  rw [foldl_groupSettlementStep]
  unfold groupExpenseBalance
  rw [foldl_groupExpenseStep]
  ring

/-- Under the no-self-settlement proviso, the spec formula coincides with the
single-pass sum the source computes. -/
theorem specGroupBalance_eq (me : Nat) (db : DB) (g : Group)
    (hns : ∀ s ∈ db.settlements, s.groupId = some g.id →
      s.paidByUserId ≠ s.receivedByUserId) :
    specGroupBalance me db g
      = isum (db.expenses.filter (fun e => e.groupId == some g.id)) (gExpD me)
        + isum (db.settlements.filter
            (fun s => s.groupId == some g.id
              && (s.paidByUserId == me || s.receivedByUserId == me))) (gSetD me) := by
  unfold specGroupBalance
  have hexp : isum (db.expenses.filter (fun e => e.groupId == some g.id))
      (fun e =>
        if e.paidByUserId = me then
          isum e.splits (fun s => if s.userId ≠ me ∧ ¬s.paid then s.amount else 0)
        else
          match e.splits.find? (fun s => s.userId == me) with
          | some userSplit => if ¬userSplit.paid then -userSplit.amount else 0
          | none => 0)
      = isum (db.expenses.filter (fun e => e.groupId == some g.id)) (gExpD me) :=
    isum_congr (fun e _ => rfl)
  rw [hexp]
  have hset : isum (db.settlements.filter
        (fun s => s.groupId == some g.id && s.paidByUserId == me)) (fun s => s.amount)
      - isum (db.settlements.filter
          (fun s => s.groupId == some g.id && s.receivedByUserId == me)) (fun s => s.amount)
      = isum (db.settlements.filter
          (fun s => s.groupId == some g.id
            && (s.paidByUserId == me || s.receivedByUserId == me))) (gSetD me) := by
    rw [isum_filter, isum_filter, isum_filter, isum_sub]
    refine isum_congr (fun s hs => ?_)
    by_cases hgr : s.groupId = some g.id
    · by_cases hp : s.paidByUserId = me
      · by_cases hr : s.receivedByUserId = me
        · exact absurd (hp.trans hr.symm) (hns s hs hgr)
        · simp [hgr, hp, hr, gSetD]
      · by_cases hr : s.receivedByUserId = me
        · simp [hgr, hp, hr, gSetD]
        · simp [hgr, hp, hr]
    · simp [hgr]
  omega

/-- C7 (amended).  For every group entry `getUserGroups` returns, provided no
settlement of that group has payer equal to receiver, the attached balance
equals the spec's formula: expense part plus settlements the subject paid
minus settlements the subject received. -/
theorem group_balance_correct (me : Nat) (db : DB) (item : GroupWithBalance)
    (hmem : item ∈ getUserGroups me db)
    (hns : ∀ s ∈ db.settlements, s.groupId = some item.grp.id →
      s.paidByUserId ≠ s.receivedByUserId) :
    item.balance = specGroupBalance me db item.grp := by
  rw [specGroupBalance_eq me db item.grp hns]
  exact getUserGroups_balance me db hmem

/-- Witness for C7 at `dbW7`: the returned balance 40 equals
`60 + 0 - 20`, the spec formula's value. -/
theorem group_balance_correct_witness :
    (⟨⟨10, "G", "", [⟨0, "admin"⟩, ⟨1, "member"⟩]⟩, 40⟩ : GroupWithBalance)
        ∈ getUserGroups 0 dbW7
      ∧ (40 : Int)
          = specGroupBalance 0 dbW7 ⟨10, "G", "", [⟨0, "admin"⟩, ⟨1, "member"⟩]⟩ :=
  ⟨by decide,
    group_balance_correct 0 dbW7
      ⟨⟨10, "G", "", [⟨0, "admin"⟩, ⟨1, "member"⟩]⟩, 40⟩ (by decide) (by decide)⟩

/-- Counterexample to C7 as stated: in `dbC7` the group's single settlement
has the subject as both payer and receiver.  `getUserGroups` adds its amount
(balance 5), while the spec formula — settlements the subject paid minus
settlements the subject received — counts it in both sums, giving 0. -/
theorem group_balance_counterexample :
    (getUserGroups 0 dbC7).map (fun item => item.balance) = [5]
      ∧ specGroupBalance 0 dbC7 gC7 = 0
      ∧ (getUserGroups 0 dbC7).map (fun item => item.grp) = [gC7] := by
  refine ⟨by decide, by decide, by decide⟩

theorem isum_map (g : α → β) (l : List α) (f : β → Int) :
    isum (l.map g) f = isum l (fun x => f (g x)) := by
  simp [isum, List.map_map]
  rfl

theorem foldl_totalStep (me : Nat) (l : List Expense) (b : Int) :
    l.foldl (totalStep me) b = b + isum l (shareOf me) := by
  induction l generalizing b with
  | nil => simp
  | cons e rest ih =>
    simp only [List.foldl_cons, ih, isum_cons]
    unfold totalStep shareOf
    cases hf : e.splits.find? (fun s => s.userId == me) <;> simp [hf]
    ring

theorem isum_setAdd (m : List (Nat × Int)) (k : Nat) (d : Int) :
    isum (setAdd m k d) (fun p => p.2) = isum m (fun p => p.2) + d := by
  induction m with
  | nil => simp [setAdd]
  | cons p rest ih =>
    obtain ⟨k', v⟩ := p
    by_cases hk : k' = k <;> simp [setAdd, hk, ih] <;> ring

theorem isum_foldl_monthStep (me : Nat) (l : List Expense) (m : List (Nat × Int)) :
    isum (l.foldl (monthStep me) m) (fun p => p.2)
      = isum m (fun p => p.2) + isum l (shareOf me) := by
  induction l generalizing m with
  | nil => simp
  | cons e rest ih =>
    simp only [List.foldl_cons, ih, isum_cons]
    unfold monthStep shareOf
    cases hf : e.splits.find? (fun s => s.userId == me) <;> simp [hf, isum_setAdd]
    ring

/-- C10.  Over the same snapshot and the same current time, `getTotalSpent`
equals the sum of the `total` fields of the `getMonthlySpending` entries:
both reduce the identically filtered expense set by the subject's split
amounts. -/
theorem year_month_agreement (now me : Nat) (db : DB) :
    getTotalSpent now me db
      = isum (getMonthlySpending now me db) (fun ent => ent.total) := by
  unfold getMonthlySpending
  rw [isum_perm (sortBy_perm _ _), isum_map]
  show _ = isum (monthlyTotalsMap now me db) (fun p => p.2)
  unfold monthlyTotalsMap
  rw [isum_foldl_monthStep]
  have hinit : isum (monthInit now) (fun p => p.2) = 0 := by
    unfold monthInit
    rw [isum_map]
    exact isum_eq_zero (fun x _ => rfl)
  rw [hinit]
  unfold getTotalSpent
  rw [foldl_totalStep]

theorem map_pointUpdate_eq_self {m : List (Nat × Int)} {k : Nat} (d : Int)
    (h : k ∉ keysOf m) :
    m.map (fun p => (p.1, if p.1 = k then p.2 + d else p.2)) = m := by
  induction m with
  | nil => rfl
  | cons p rest ih =>
    simp only [keysOf, List.map_cons, List.mem_cons] at h
    push_neg at h
    simp only [List.map_cons, if_neg (show ¬p.1 = k from fun hh => h.1 hh.symm)]
    rw [ih (by simpa [keysOf] using h.2)]

theorem setAdd_of_mem {m : List (Nat × Int)} {k : Nat} (d : Int)
    (hnd : (keysOf m).Nodup) (hk : k ∈ keysOf m) :
    setAdd m k d = m.map (fun p => (p.1, if p.1 = k then p.2 + d else p.2)) := by
  induction m with
  | nil => simp [keysOf] at hk
  | cons p rest ih =>
    obtain ⟨k', v⟩ := p
    simp only [keysOf, List.map_cons, List.nodup_cons, List.mem_cons] at hnd hk
    by_cases hkk : k' = k
    · subst hkk
      simp only [setAdd, List.map_cons]
      rw [map_pointUpdate_eq_self d (by simpa [keysOf] using hnd.1)]
      simp
    · rcases hk with hk | hk
      · exact absurd hk.symm hkk
      · simp only [setAdd, if_neg hkk, List.map_cons, if_neg hkk]
        rw [ih hnd.2 (by simpa [keysOf] using hk)]

theorem keysOf_map_eq (m : List (Nat × Int)) (g : Nat × Int → Nat × Int)
    (hg : ∀ p, (g p).1 = p.1) : keysOf (m.map g) = keysOf m := by
  unfold keysOf
  rw [List.map_map]
  exact List.map_congr_left (fun p _ => hg p)

/-- When every update key already exists among duplicate-free keys, the month
fold acts pointwise: each entry gains exactly its bucket's total. -/
theorem foldl_monthStep_char (me : Nat) (l : List Expense) (m : List (Nat × Int))
    (hnd : (keysOf m).Nodup)
    (hl : ∀ e ∈ l, monthKeyOf e ∈ keysOf m) :
    l.foldl (monthStep me) m = m.map (fun p => (p.1, p.2 + bucketSum me l p.1)) := by
  induction l generalizing m with
  | nil =>
    have : m.map (fun p => (p.1, p.2 + bucketSum me [] p.1)) = m.map (fun p => p) :=
      List.map_congr_left (fun p _ => by simp [bucketSum])
    simp [this]
  | cons e rest ih =>
    have hlrest : ∀ x ∈ rest, monthKeyOf x ∈ keysOf m :=
      fun x hx => hl x (List.mem_cons_of_mem _ hx)
    cases hf : e.splits.find? (fun s => s.userId == me) with
    | none =>
      have hstep : monthStep me m e = m := by simp [monthStep, hf]
      rw [List.foldl_cons, hstep, ih m hnd hlrest]
      refine List.map_congr_left (fun p _ => ?_)
      have hb : bucketSum me (e :: rest) p.1 = bucketSum me rest p.1 := by
        simp [bucketSum, isum_cons, shareOf, hf]
      rw [hb]
    | some us =>
      have hkey : monthKeyOf e ∈ keysOf m := hl e (List.mem_cons_self _ _)
      have hstep : monthStep me m e = setAdd m (monthKeyOf e) us.amount := by
        simp [monthStep, hf]
      have hkeys' : keysOf (m.map (fun p =>
          (p.1, if p.1 = monthKeyOf e then p.2 + us.amount else p.2))) = keysOf m :=
        keysOf_map_eq m _ (fun p => rfl)
      rw [List.foldl_cons, hstep, setAdd_of_mem us.amount hnd hkey,
        ih _ (by rw [hkeys']; exact hnd) (by rw [hkeys']; exact hlrest),
        List.map_map]
      refine List.map_congr_left (fun p _ => ?_)
      have hshare : shareOf me e = us.amount := by simp [shareOf, hf]
      simp only [Function.comp_apply, bucketSum, isum_cons, hshare, Prod.mk.injEq]
      refine ⟨trivial, ?_⟩
      by_cases hpk : p.1 = monthKeyOf e
      · rw [if_pos hpk, if_pos hpk.symm]
        ring
      · rw [if_neg hpk, if_neg (fun hh => hpk hh.symm)]
        ring

theorem keysOf_monthInit (now : Nat) :
    keysOf (monthInit now) = (List.range 12).map (monthStartTs (dateYear now)) := by
  unfold monthInit keysOf
  rw [List.map_map]
  rfl

theorem nodup_keysOf_monthInit (now : Nat) : (keysOf (monthInit now)).Nodup := by
  rw [keysOf_monthInit]
  refine List.Nodup.map ?_ (List.nodup_range 12)
  intro i j hij
  unfold monthStartTs at hij
  omega

theorem mem_userExpensesOf {now me : Nat} {db : DB} {e : Expense}
    (h : e ∈ userExpensesOf now me db) :
    e ∈ db.expenses ∧ monthStartTs (dateYear now) 0 ≤ e.date := by
  unfold userExpensesOf at h
  have h1 := List.mem_of_mem_filter h
  exact ⟨List.mem_of_mem_filter h1, by simpa using List.of_mem_filter h1⟩

theorem monthlyTotalsMap_char (now me : Nat) (db : DB)
    (h : ∀ e ∈ db.expenses, monthStartTs (dateYear now) 0 ≤ e.date →
      dateYear e.date = dateYear now) :
    monthlyTotalsMap now me db
      = (List.range 12).map (fun i =>
          (monthStartTs (dateYear now) i,
            bucketSum me (userExpensesOf now me db) (monthStartTs (dateYear now) i))) := by
  unfold monthlyTotalsMap
  have hl : ∀ e ∈ userExpensesOf now me db, monthKeyOf e ∈ keysOf (monthInit now) := by
    intro e he
    obtain ⟨hdb, hdate⟩ := mem_userExpensesOf he
    have hyear := h e hdb hdate
    rw [keysOf_monthInit]
    refine List.mem_map.mpr ⟨dateMonth e.date, List.mem_range.mpr (dateMonth_lt_12 _), ?_⟩
    unfold monthKeyOf
    rw [hyear]
  rw [foldl_monthStep_char me _ _ (nodup_keysOf_monthInit now) hl]
  unfold monthInit
  rw [List.map_map]
  refine List.map_congr_left (fun i _ => ?_)
  simp

theorem getMonthlySpending_char (now me : Nat) (db : DB)
    (h : ∀ e ∈ db.expenses, monthStartTs (dateYear now) 0 ≤ e.date →
      dateYear e.date = dateYear now) :
    getMonthlySpending now me db
      = (List.range 12).map (fun i =>
          (⟨monthStartTs (dateYear now) i,
            bucketSum me (userExpensesOf now me db) (monthStartTs (dateYear now) i)⟩
            : MonthEntry)) := by
  unfold getMonthlySpending
  rw [monthlyTotalsMap_char now me db h, List.map_map]
  apply sortBy_eq_self
  rw [List.pairwise_map]
  refine (List.pairwise_lt_range 12).imp ?_
  intro i j hij
  simp only [Function.comp_apply, decide_eq_false_iff_not, not_lt, monthStartTs]
  omega

/-- C3 (amended).  Provided every stored expense dated on/after Jan 1 of the
current year actually falls inside the current year, `getMonthlySpending`
returns exactly the 12 calendar months of the current year — in ascending
first-of-month order, empty months carrying the zero bucket total — even if
the subject has no expenses that year. -/
theorem month_coverage (now me : Nat) (db : DB)
    (h : ∀ e ∈ db.expenses, monthStartTs (dateYear now) 0 ≤ e.date →
      dateYear e.date = dateYear now) :
    (getMonthlySpending now me db).map (fun ent => ent.month)
        = (List.range 12).map (monthStartTs (dateYear now))
      ∧ ∀ ent ∈ getMonthlySpending now me db,
          ent.total = bucketSum me (userExpensesOf now me db) ent.month := by
  constructor
  · rw [getMonthlySpending_char now me db h, List.map_map]
    rfl
  · intro ent hent
    rw [getMonthlySpending_char now me db h] at hent
    obtain ⟨i, hi, heq⟩ := List.mem_map.mp hent
    rw [← heq]

/-- Witness for C3 at the empty snapshot: 12 ascending month entries even
with no expenses at all. -/
theorem month_coverage_witness :
    (getMonthlySpending 0 0 dbEmpty).map (fun ent => ent.month)
      = (List.range 12).map (monthStartTs (dateYear 0)) :=
  (month_coverage 0 0 dbEmpty (by decide)).1

/-- Counterexample to C3 as stated: with current time in year 1, the
year-2-dated expense of `dbC3` creates a thirteenth bucket, so
`getMonthlySpending` does not return exactly 12 entries. -/
theorem month_coverage_counterexample :
    (getMonthlySpending 12000 0 dbC3).length = 13 := by decide
